import Mathlib

/-!
# Cover similarity search pipeline — verification development

A shallow embedding of the book-cover similarity search pipeline:
the title normalizer (`normalizeTitle`, `getTitleVariations`,
`extractBookTitle` from the translation service), the catalog search
client (`searchBooks`, `getBooksWithCovers`), the search orchestrator
(`searchBooksByTitle`) and the similarity ranker inside
`findSimilarCovers` (the ISBNDB service module).

Remote effects (the catalog HTTP calls and the perceptual-hash
primitive applied to fetched image bytes) are modelled by an
environment `ApiEnv` supplying the outcome of each call; all pipeline
logic is embedded as executable Lean functions.  JavaScript numbers
are modelled by `ℚ`: every similarity value manipulated by the ranker
is a small dyadic rational, exactly representable as a float, so the
rational model agrees with the float semantics on everything stated
here.
-/

namespace CoverSearch

/-- The whitespace class `\s` of JavaScript regular expressions
(restricted to its ASCII members, the only ones the pipeline meets). -/
def jsIsSpace (c : Char) : Bool :=
  c = ' ' || c = '\t' || c = '\n' || c = '\r' || c = '\x0b' || c = '\x0c'

/-- `replace(/\s+/g, ' ')` on a character list: every maximal whitespace
run becomes a single space.  The boolean records whether the scan is
inside a whitespace run. -/
def collapseWsAux : List Char → Bool → List Char
  | [], _ => []
  | c :: rest, inRun =>
    if jsIsSpace c then
      if inRun then collapseWsAux rest true else ' ' :: collapseWsAux rest true
    else c :: collapseWsAux rest false

/-- `replace(/\s+/g, ' ')` on strings. -/
def collapseWs (s : String) : String := String.mk (collapseWsAux s.toList false)

/-- JavaScript `String.prototype.trim()`. -/
def jsTrim (s : String) : String :=
  String.mk (((s.toList.dropWhile jsIsSpace).reverse.dropWhile jsIsSpace).reverse)

/-- `replace(/[_-]/g, ' ')`. -/
def replaceSeparators (s : String) : String :=
  String.mk (s.toList.map (fun c => if c = '_' || c = '-' then ' ' else c))

/-- JavaScript `toLowerCase()`, for the ASCII titles the pipeline
handles (modelled character by character). -/
def jsToLower (s : String) : String := String.mk (s.toList.map Char.toLower)

/-- `normalizeTitle` from the translation service: lower-case, turn the
separators `_` and `-` into spaces, collapse whitespace runs, trim. -/
def normalizeTitle (title : String) : String :=
  jsTrim (collapseWs (replaceSeparators (jsToLower title)))

/-- The image extensions stripped by `extractBookTitle`. -/
def imageExtensions : List String := [".jpg", ".jpeg", ".png", ".svg", ".webp", ".gif"]

/-- `replace(/\.(jpg|jpeg|png|svg|webp|gif)$/i, '')`. -/
def stripImageExt (s : String) : String :=
  match imageExtensions.find? (fun ext => ext.toList.isSuffixOf (jsToLower s).toList) with
  | some ext => String.mk (s.toList.take (s.toList.length - ext.toList.length))
  | none => s

/-- `\d+`: at least one digit, consumed greedily. -/
def matchDigits : List Char → Option (List Char)
  | [] => none
  | c :: rest => if c.isDigit then some (rest.dropWhile Char.isDigit) else none

/-- `\(\d+\)`: a parenthesised digit run. -/
def matchParenDigits : List Char → Option (List Char)
  | '(' :: rest =>
    (match matchDigits rest with
     | some (')' :: rest2) => some rest2
     | _ => none)
  | _ => none

/-- The optional trailing group `(\(\d+\)|\d+)?` of the copy-suffix
pattern: first alternative preferred, empty match if neither fits. -/
def matchOptGroup (cs : List Char) : List Char :=
  match matchParenDigits cs with
  | some r => r
  | none =>
    match matchDigits cs with
    | some r => r
    | none => cs

/-- The optional `-?` of the copy-suffix pattern followed by `\s*`. -/
def matchDashOpt (cs : List Char) : List Char :=
  match cs with
  | '-' :: rest => rest.dropWhile jsIsSpace
  | _ => cs

/-- The literal `copy`, case-insensitively. -/
def isCopyWord (c1 c2 c3 c4 : Char) : Bool :=
  c1.toLower = 'c' && c2.toLower = 'o' && c3.toLower = 'p' && c4.toLower = 'y'

/-- Attempt to match `/\s*-?\s*copy\s*(\(\d+\)|\d+)?/i` at the head of
the list, returning the remainder after the match. -/
def tryMatchCopyAt (cs : List Char) : Option (List Char) :=
  match matchDashOpt (cs.dropWhile jsIsSpace) with
  | c1 :: c2 :: c3 :: c4 :: rest =>
    if isCopyWord c1 c2 c3 c4 then some (matchOptGroup (rest.dropWhile jsIsSpace))
    else none
  | _ => none


/-- Left-to-right scan removing every occurrence of the copy-suffix
pattern.  The fuel argument (instantiated with the list length, which
`length_tryMatchCopyAt_lt` shows never runs out) makes the recursion
structural. -/
def removeCopiesAux : ℕ → List Char → List Char
  | 0, cs => cs
  | _ + 1, [] => []
  | n + 1, c :: rest =>
    match tryMatchCopyAt (c :: rest) with
    | some after => removeCopiesAux n after
    | none => c :: removeCopiesAux n rest

/-- `replace(/\s*-?\s*copy\s*(\(\d+\)|\d+)?/gi, '')`: scan left to
right, removing every occurrence of the copy-suffix pattern. -/
def removeCopies (cs : List Char) : List Char := removeCopiesAux cs.length cs

/-- `extractBookTitle` from the translation service: strip a known image
extension, turn separators into spaces, remove copy-suffixes, collapse
whitespace and trim. -/
def extractBookTitle (filename : String) : String :=
  jsTrim (collapseWs (String.mk (removeCopies (replaceSeparators (stripImageExt filename)).toList)))

/-- The word-character class `\w` of JavaScript regular expressions. -/
def isWordChar (c : Char) : Bool := c.isAlphanum || c = '_'

/-- Apply `f` to every maximal `\w`-run of the list (the `\b…\b`
matching discipline of the word-replacement regexes); other characters
pass through.  The first argument accumulates the current run in
reverse. -/
def mapTokensAux (f : List Char → List Char) : List Char → List Char → List Char
  | cur, [] => f cur.reverse
  | cur, c :: rest =>
    if isWordChar c then mapTokensAux f (c :: cur) rest
    else f cur.reverse ++ c :: mapTokensAux f [] rest

/-- Apply `f` to every maximal word-character run of a string. -/
def mapTokens (f : List Char → List Char) (s : String) : String :=
  String.mk (mapTokensAux f [] s.toList)

/-- The stop words of `replace(/\b(the|a|an|copy|book|novel)\b/gi, '')`. -/
def stopWords : List String := ["the", "a", "an", "copy", "book", "novel"]

/-- Delete a token that is one of the stop words (case-insensitively). -/
def dropStopToken (tok : List Char) : List Char :=
  if String.mk (tok.map Char.toLower) ∈ stopWords then [] else tok

/-- `replace(/\b(the|a|an|copy|book|novel)\b/gi, '')` followed by the
whitespace collapse and trim the service applies to the result. -/
def removeCommonWords (s : String) : String :=
  jsTrim (collapseWs (mapTokens dropStopToken s))

/-- The digit substituted for a spelled-out number token, if any:
`replace(/\bone\b/g, '1')` etc. (case-sensitive). -/
def numberWordDigit (tok : List Char) : Option Char :=
  if tok = ['o', 'n', 'e'] then some '1'
  else if tok = ['t', 'w', 'o'] then some '2'
  else if tok = ['t', 'h', 'r', 'e', 'e'] then some '3'
  else none

/-- Replace a spelled-out number token by its digit. -/
def substNumberToken (tok : List Char) : List Char :=
  match numberWordDigit tok with
  | some d => [d]
  | none => tok

/-- The three chained number-word replacements of the service. -/
def replaceNumberWords (s : String) : String := mapTokens substNumberToken s

/-- The **own properties** of the `COMMON_TRANSLATIONS` object
literal: curated alternate-script variants for well-known titles,
looked up by normalized title.  The JavaScript read also walks the
prototype chain, which `commonTranslationsLookup` and
`getTitleVariationsE` below model; the pipeline-level claims use this
total view, which agrees with the checked one whenever the lookup does
not throw. -/
def commonTranslations (key : String) : List String :=
  if key = "harry potter" then
    ["harry potter", "гарри поттер", "ハリー・ポッター", "哈利·波特"]
  else if key = "lord of the rings" then
    ["lord of the rings", "señor de los anillos", "властелин колец"]
  else []

/-- Insertion into a JavaScript `Set` materialised as a list: keep
first-insertion order, ignore an element already present. -/
def setAdd (l : List String) (s : String) : List String :=
  if s ∈ l then l else l ++ [s]

/-- `getTitleVariations` from the translation service: the normalized
and original forms, any curated translations, a stop-word-free form and
a digit form, deduplicated in insertion order, with empty strings
filtered out. -/
def getTitleVariations (title : String) : List String :=
  let normalized := normalizeTitle title
  let base := setAdd (setAdd [] normalized) title
  let withTrans := (commonTranslations (jsToLower normalized)).foldl setAdd base
  let withoutCommon := removeCommonWords normalized
  let afterCommon :=
    if withoutCommon ≠ "" ∧ withoutCommon ≠ normalized then setAdd withTrans withoutCommon
    else withTrans
  let withNumbers := replaceNumberWords normalized
  let afterNumbers :=
    if withNumbers ≠ normalized then setAdd afterCommon withNumbers else afterCommon
  afterNumbers.filter (fun v => decide (0 < v.length))

/-- The outcome of the JavaScript property read
`COMMON_TRANSLATIONS[key]` on the object literal, prototype chain
included: one of the two curated own properties, the **inherited**
`Object.prototype.constructor` function, or `undefined`.
(`constructor` is the only `Object.prototype` member that is a
lowercase identifier, hence the only inherited property a normalized
title — lower-case, separators replaced — can reach.) -/
inductive TranslationLookup where
  | ownList : List String → TranslationLookup
  | inheritedFunction : TranslationLookup
  | absent : TranslationLookup
deriving DecidableEq, Repr

/-- `COMMON_TRANSLATIONS[key]` with the prototype chain. -/
def commonTranslationsLookup (key : String) : TranslationLookup :=
  if key = "harry potter" then
    .ownList ["harry potter", "гарри поттер", "ハリー・ポッター", "哈利·波特"]
  else if key = "lord of the rings" then
    .ownList ["lord of the rings", "señor de los anillos", "властелин колец"]
  else if key = "constructor" then .inheritedFunction
  else .absent

/-- The tail of `getTitleVariations` after the translation merge: the
stop-word-free form, the digit form, and the final non-empty filter. -/
def variationsFrom (withTrans : List String) (normalized : String) : List String :=
  let withoutCommon := removeCommonWords normalized
  let afterCommon :=
    if withoutCommon ≠ "" ∧ withoutCommon ≠ normalized then setAdd withTrans withoutCommon
    else withTrans
  let withNumbers := replaceNumberWords normalized
  let afterNumbers :=
    if withNumbers ≠ normalized then setAdd afterCommon withNumbers else afterCommon
  afterNumbers.filter (fun v => decide (0 < v.length))

/-- `getTitleVariations` with the JavaScript error path modelled: the
lookup `COMMON_TRANSLATIONS[lowerTitle]` walks the prototype chain,
and when it yields the inherited `constructor` function (truthy, not
an array) the `.forEach(...)` call throws a TypeError, so the function
returns no list at all. On every other lookup outcome it behaves as
`getTitleVariations`. -/
def getTitleVariationsE (title : String) : Except String (List String) :=
  let normalized := normalizeTitle title
  let base := setAdd (setAdd [] normalized) title
  match commonTranslationsLookup (jsToLower normalized) with
  | .inheritedFunction =>
    .error "TypeError: COMMON_TRANSLATIONS[lowerTitle].forEach is not a function"
  | .ownList transList => .ok (variationsFrom (transList.foldl setAdd base) normalized)
  | .absent => .ok (variationsFrom base normalized)

/-- A perceptual hash: the 64-bit value produced by the WASM primitive
from an 8×8 hash grid, modelled as its bit sequence. -/
structure ImageHash where
  bits : List Bool
deriving DecidableEq, Repr

/-- The primitive's Hamming distance: number of differing bits. -/
def ImageHash.hammingDistance (a b : ImageHash) : ℕ :=
  ((a.bits.zip b.bits).filter (fun p => p.1 != p.2)).length

/-- One hex digit. -/
def hexDigit (n : ℕ) : Char :=
  if n < 10 then Char.ofNat ('0'.toNat + n) else Char.ofNat ('a'.toNat + (n - 10))

/-- Hex encoding of a bit sequence, nibble by nibble. -/
def bitsToHex : List Bool → List Char
  | b1 :: b2 :: b3 :: b4 :: rest =>
    hexDigit ((if b1 then 8 else 0) + (if b2 then 4 else 0) +
              (if b3 then 2 else 0) + (if b4 then 1 else 0)) :: bitsToHex rest
  | _ => []

/-- The primitive's `toHex`. -/
def ImageHash.toHex (h : ImageHash) : String := String.mk (bitsToHex h.bits)

/-- A book record returned by the ISBNDB catalog.  Fields that may be
absent from the JSON are `Option`s (`none` = absent, `some ""` =
present but empty). -/
structure Book where
  title : String := ""
  authors : Option (List String) := none
  isbn13 : Option String := none
  isbn : Option String := none
  image : Option String := none
  publisher : Option String := none
  date_published : Option String := none
deriving DecidableEq, Repr

/-- The errors a pipeline invocation can raise: the missing-credential
configuration error, a remote search failure, and an image
fetch-or-hash failure. -/
inductive PipeError where
  | configError : PipeError
  | remote (msg : String) : PipeError
  | hashFailure (msg : String) : PipeError
deriving DecidableEq, Repr

/-- Decidable equality of call outcomes, for concrete evaluation. -/
instance {ε α : Type _} [DecidableEq ε] [DecidableEq α] : DecidableEq (Except ε α) := fun a b =>
  match a, b with
  | .error e1, .error e2 =>
    if h : e1 = e2 then isTrue (by rw [h]) else isFalse (by intro hc; cases hc; exact h rfl)
  | .ok v1, .ok v2 =>
    if h : v1 = v2 then isTrue (by rw [h]) else isFalse (by intro hc; cases hc; exact h rfl)
  | .error _, .ok _ => isFalse (by intro hc; cases hc)
  | .ok _, .error _ => isFalse (by intro hc; cases hc)

/-- The effectful collaborators of one pipeline invocation: the API
credential, the catalog's response to each `(query, page, pageSize)`
search, and the outcome of fetching-and-hashing each image URL. -/
structure ApiEnv where
  apiKey : String
  network : String → ℕ → ℕ → Except PipeError (List Book)
  imageHash : String → Except PipeError ImageHash

/-- `searchBooks` from the ISBNDB service: fail on a missing API key,
otherwise forward the remote call's outcome. -/
def searchBooks (env : ApiEnv) (query : String) (page pageSize : ℕ) :
    Except PipeError (List Book) :=
  if env.apiKey = "" then .error .configError
  else env.network query page pageSize

/-- `book.image && book.image.trim() !== ''`: a usable cover locator. -/
def hasCover (b : Book) : Bool :=
  match b.image with
  | none => false
  | some s => s ≠ "" && jsTrim s ≠ ""

/-- `getBooksWithCovers`: one generic search, filtered to books with
cover images. -/
def getBooksWithCovers (env : ApiEnv) (query : String) (maxResults : ℕ) :
    Except PipeError (List Book) :=
  match searchBooks env query 1 maxResults with
  | .error e => .error e
  | .ok books => .ok (books.filter hasCover)

/-- The deduplication key `book.isbn13 || book.isbn` (JavaScript `||`:
an empty `isbn13` falls through to `isbn`; `none` is the shared
"absent" key). -/
def bookKey (b : Book) : Option String :=
  match b.isbn13 with
  | some s => if s = "" then b.isbn else some s
  | none => b.isbn

/-- One step of the orchestrator's accumulation: keep a candidate with
a usable cover whose key has not been seen, recording its key. -/
def dedupStep (acc : List Book × List (Option String)) (book : Book) :
    List Book × List (Option String) :=
  if hasCover book ∧ bookKey book ∉ acc.2 then (acc.1 ++ [book], bookKey book :: acc.2)
  else acc

/-- Processing of one title variation: a failed search contributes
nothing; a successful one feeds its books through `dedupStep`. -/
def searchVariationsFold (env : ApiEnv) (maxResultsPerQuery : ℕ)
    (acc : List Book × List (Option String)) (variation : String) :
    List Book × List (Option String) :=
  match searchBooks env variation 1 maxResultsPerQuery with
  | .error _ => acc
  | .ok books => books.foldl dedupStep acc

/-- `searchBooksByTitle`: search every title variation, accumulating
first-seen candidates with covers, deduplicated by `bookKey`. -/
def searchBooksByTitle (env : ApiEnv) (title : String) (maxResultsPerQuery : ℕ) : List Book :=
  ((getTitleVariations title).foldl (searchVariationsFold env maxResultsPerQuery) ([], [])).1

/-- The caller-supplied options of `findSimilarCovers`, with the
source's defaults. -/
structure SearchOptions where
  imageName : String := ""
  query : String := "fiction"
  maxResults : ℕ := 50
  similarityThreshold : ℚ := 70
  topN : ℕ := 10

/-- The title-based tier is attempted when an image name is present and
the extracted title is longer than 2 characters. -/
def titleTierAttempted (imageName : String) : Bool :=
  decide (imageName ≠ "" ∧ extractBookTitle imageName ≠ "" ∧
          2 < (extractBookTitle imageName).length)

/-- The candidates produced by the title-based tier (empty when the
tier is skipped). -/
def titleTierBooks (env : ApiEnv) (imageName : String) : List Book :=
  if titleTierAttempted imageName then searchBooksByTitle env (extractBookTitle imageName) 20
  else []

/-- Steps 1–2 of `findSimilarCovers`: the title-based tier, then the
generic fallback when it produced nothing, together with the method
tag.  (`searchBooksByTitle` catches every per-variation failure, so the
source's `generic-fallback` catch branch is unreachable.) -/
def candidateSearch (env : ApiEnv) (opts : SearchOptions) :
    Except PipeError (List Book × String) :=
  let books0 := titleTierBooks env opts.imageName
  let method0 := if titleTierAttempted opts.imageName then "title-based" else "generic"
  if books0.length = 0 then
    match getBooksWithCovers env opts.query opts.maxResults with
    | .error e => .error e
    | .ok books => .ok (books, if 0 < books.length then "generic" else "none")
  else .ok (books0, method0)

/-- The book fields copied into a scored match. -/
structure MatchedBook where
  title : String
  authors : List String
  isbn : Option String
  publisher : Option String
  image : Option String
  publishDate : Option String
deriving DecidableEq, Repr

/-- `book.authors || []` and `book.isbn13 || book.isbn` applied while
building a match entry. -/
def matchedBookOf (b : Book) : MatchedBook :=
  { title := b.title, authors := b.authors.getD [], isbn := bookKey b,
    publisher := b.publisher, image := b.image, publishDate := b.date_published }

/-- A candidate retained by the ranker. -/
structure ScoredMatch where
  book : MatchedBook
  similarity : ℚ
  hashHex : String
  hammingDistance : ℕ
  matchedByTitle : Bool
deriving DecidableEq, Repr

/-- The pipeline's final output object. -/
structure PipelineResult where
  targetHash : String
  results : List ScoredMatch
  totalCompared : ℕ
  searchMethod : String
  searchQuery : String
deriving DecidableEq, Repr

/-- `Math.round(x * 100) / 100`: round to two decimal places
(JavaScript `Math.round` is `⌊x + 1/2⌋`). -/
def round2 (x : ℚ) : ℚ := ((x * 100 + 1 / 2).floor : ℚ) / 100

/-- `(1.0 - hammingDistance / maxDistance) * 100.0` with
`maxDistance = 8 * 8`. -/
def rawSimilarity (d : ℕ) : ℚ := (1 - (d : ℚ) / (8 * 8)) * 100

/-- `calculateHash(book.image)`'s argument. -/
def coverUrl (b : Book) : String := b.image.getD ""

/-- One iteration of the ranker's comparison loop: a failed cover hash
skips the candidate; otherwise the candidate is retained when its
similarity reaches the threshold. -/
def compareStep (env : ApiEnv) (targetHash : ImageHash) (searchMethod : String)
    (threshold : ℚ) (acc : List ScoredMatch) (book : Book) : List ScoredMatch :=
  match env.imageHash (coverUrl book) with
  | .error _ => acc
  | .ok bookHash =>
    let d := targetHash.hammingDistance bookHash
    if rawSimilarity d ≥ threshold then
      acc ++ [{ book := matchedBookOf book, similarity := round2 (rawSimilarity d),
                hashHex := bookHash.toHex, hammingDistance := d,
                matchedByTitle := searchMethod == "title-based" }]
    else acc

/-- Step 3 of `findSimilarCovers`: the whole comparison loop. -/
def compareAll (env : ApiEnv) (targetHash : ImageHash) (searchMethod : String)
    (threshold : ℚ) (books : List Book) : List ScoredMatch :=
  books.foldl (compareStep env targetHash searchMethod threshold) []

/-- The sort order `(a, b) => b.similarity - a.similarity`: similarity
descending. -/
def simGe (a b : ScoredMatch) : Bool := decide (b.similarity ≤ a.similarity)

/-- `imageName || query`: the effective query string reported. -/
def effectiveQuery (opts : SearchOptions) : String :=
  if opts.imageName ≠ "" then opts.imageName else opts.query

/-- `findSimilarCovers`: hash the target (fatal on failure), gather
candidates, compare each (skipping per-candidate failures), sort by
similarity descending and truncate to `topN`. -/
def findSimilarCovers (env : ApiEnv) (targetImageUrl : String) (opts : SearchOptions) :
    Except PipeError PipelineResult :=
  match env.imageHash targetImageUrl with
  | .error e => .error e
  | .ok targetHash =>
    match candidateSearch env opts with
    | .error e => .error e
    | .ok (books, searchMethod) =>
      if books.length = 0 then
        .ok { targetHash := targetHash.toHex, results := [], totalCompared := 0,
              searchMethod := "none", searchQuery := effectiveQuery opts }
      else
        let comparisons := compareAll env targetHash searchMethod opts.similarityThreshold books
        .ok { targetHash := targetHash.toHex,
              results := (comparisons.mergeSort simGe).take opts.topN,
              totalCompared := books.length,
              searchMethod := searchMethod,
              searchQuery := effectiveQuery opts }

/-- The books one variation's search contributes (none on failure). -/
def variationBooks (env : ApiEnv) (maxResultsPerQuery : ℕ) (variation : String) : List Book :=
  match searchBooks env variation 1 maxResultsPerQuery with
  | .error _ => []
  | .ok books => books

/-- The discovery stream of the title tier: every book returned by the
successful variation searches, in discovery order. -/
def titleSearchStream (env : ApiEnv) (title : String) (maxResultsPerQuery : ℕ) : List Book :=
  (getTitleVariations title).flatMap (variationBooks env maxResultsPerQuery)

/-- First-occurrence deduplication by `bookKey` over a book stream:
keep each cover-bearing book whose key is unseen, recording its key. -/
def dedupByKeyAux : List Book → List (Option String) → List Book
  | [], _ => []
  | b :: rest, seen =>
    if hasCover b ∧ bookKey b ∉ seen then b :: dedupByKeyAux rest (bookKey b :: seen)
    else dedupByKeyAux rest seen

/-- The seen-key set left behind by `dedupByKeyAux`. -/
def seenAfter : List Book → List (Option String) → List (Option String)
  | [], seen => seen
  | b :: rest, seen =>
    if hasCover b ∧ bookKey b ∉ seen then seenAfter rest (bookKey b :: seen)
    else seenAfter rest seen

/-- The quantity the specification calls the count of candidates
"actually compared" — the number of candidates whose cover hash
computation succeeds so that a Hamming distance is taken.  Stated from
the specification's words, for comparison with the code's
`totalCompared` field. -/
def specComparedCount (env : ApiEnv) (books : List Book) : ℕ :=
  (books.filter (fun b => (env.imageHash (coverUrl b)).isOk)).length

/-- The all-zero 64-bit target hash of the concrete scenarios. -/
def targetHashW : ImageHash := ⟨List.replicate 64 false⟩

/-- A candidate hash at Hamming distance 3 from `targetHashW`. -/
def candHash3 : ImageHash := ⟨[true, true, true] ++ List.replicate 61 false⟩

/-- A well-formed candidate with a cover and a 13-digit ISBN. -/
def bookB : Book := { title := "B", isbn13 := some "9781111111111", image := some "u1" }

/-- Scenario: one generic candidate at distance 3; every call succeeds. -/
def envMain : ApiEnv :=
  { apiKey := "k",
    network := fun q _ _ => if q = "fiction" then .ok [bookB] else .ok [],
    imageHash := fun u =>
      if u = "target" then .ok targetHashW
      else if u = "u1" then .ok candHash3
      else .error (.hashFailure "unknown url") }

/-- The match entry `envMain` produces for `bookB`. -/
def matchB : ScoredMatch :=
  { book := matchedBookOf bookB, similarity := round2 (rawSimilarity 3),
    hashHex := candHash3.toHex, hammingDistance := 3, matchedByTitle := false }

/-- Scenario: the generic fallback's remote search fails. -/
def envGenFail : ApiEnv :=
  { apiKey := "k",
    network := fun _ _ _ => .error (.remote "ISBNDB API error: 500 Internal Server Error"),
    imageHash := fun u =>
      if u = "target" then .ok targetHashW else .error (.hashFailure "unknown url") }

/-- Scenario: one generic candidate whose cover fetch-and-hash fails. -/
def envHashFail : ApiEnv :=
  { apiKey := "k",
    network := fun q _ _ => if q = "fiction" then .ok [bookB] else .ok [],
    imageHash := fun u =>
      if u = "target" then .ok targetHashW else .error (.hashFailure "fetch failed") }

/-- Two candidates sharing the 13-digit ISBN of `bookB`, returned by
two different variations of the title `Dog_Cat`. -/
def bookBdup : Book := { title := "B2", isbn13 := some "9781111111111", image := some "u2" }

/-- Scenario for deduplication: the two variations of `Dog_Cat` each
return one candidate, and the two candidates share one identifier. -/
def envDup : ApiEnv :=
  { apiKey := "k",
    network := fun q _ _ =>
      if q = "dog cat" then .ok [bookB]
      else if q = "Dog_Cat" then .ok [bookBdup] else .ok [],
    imageHash := fun _ => .error (.hashFailure "unused") }

/-- Two cover-bearing candidates with no identifier at all. -/
def bookNoId1 : Book := { title := "n1", image := some "u1" }

/-- A second identifier-less candidate, distinct from `bookNoId1`. -/
def bookNoId2 : Book := { title := "n2", image := some "u2" }

/-- Scenario: one title variation returns two identifier-less
candidates. -/
def envNoId : ApiEnv :=
  { apiKey := "k",
    network := fun q _ _ => if q = "abc" then .ok [bookNoId1, bookNoId2] else .ok [],
    imageHash := fun _ => .error (.hashFailure "unused") }

/-!
## Auxiliary theorems
-/

/-- Length of `dropWhile` never exceeds the length of the input. -/
theorem length_dropWhile_le (p : α → Bool) (l : List α) :
    (l.dropWhile p).length ≤ l.length :=
  (List.dropWhile_sublist p).length_le

theorem length_matchDigits_le {cs rest : List Char} (h : matchDigits cs = some rest) :
    rest.length ≤ cs.length := by
  cases cs with
  | nil => simp [matchDigits] at h
  | cons c tl =>
    simp only [matchDigits] at h
    split at h
    · cases h
      exact Nat.le_succ_of_le (length_dropWhile_le _ tl)
    · cases h

theorem length_matchParenDigits_le {cs rest : List Char} (h : matchParenDigits cs = some rest) :
    rest.length ≤ cs.length := by
  cases cs with
  | nil => simp [matchParenDigits] at h
  | cons c tl =>
    by_cases hc : c = '('
    · subst hc
      simp only [matchParenDigits] at h
      split at h
      · rename_i rest2 heq
        cases h
        have h2 := length_matchDigits_le heq
        simp only [List.length_cons] at h2 ⊢
        omega
      · cases h
    · have : matchParenDigits (c :: tl) = none := by
        cases c
        simp only [matchParenDigits]
        split
        · rename_i heq
          injection heq with h1 h2
          exact absurd (by rw [h1]) hc
        · rfl
      rw [this] at h
      cases h

theorem length_matchOptGroup_le (cs : List Char) : (matchOptGroup cs).length ≤ cs.length := by
  unfold matchOptGroup
  split
  · rename_i heq
    exact length_matchParenDigits_le heq
  · split
    · rename_i heq
      exact length_matchDigits_le heq
    · exact Nat.le_refl _

theorem length_matchDashOpt_le (cs : List Char) : (matchDashOpt cs).length ≤ cs.length := by
  unfold matchDashOpt
  split
  · exact Nat.le_succ_of_le (length_dropWhile_le _ _)
  · exact Nat.le_refl _

/-- A successful copy-suffix match strictly shrinks the list, so the
length fuel of `removeCopiesAux` never runs out. -/
theorem length_tryMatchCopyAt_lt {cs after : List Char} (h : tryMatchCopyAt cs = some after) :
    after.length < cs.length := by
  unfold tryMatchCopyAt at h
  split at h
  · rename_i c1 c2 c3 c4 rest heq
    split at h
    · cases h
      have h1 : (matchDashOpt (cs.dropWhile jsIsSpace)).length ≤ cs.length :=
        Nat.le_trans (length_matchDashOpt_le _) (length_dropWhile_le _ _)
      rw [heq] at h1
      simp only [List.length_cons] at h1
      have h2 : (matchOptGroup (rest.dropWhile jsIsSpace)).length ≤ rest.length :=
        Nat.le_trans (length_matchOptGroup_le _) (length_dropWhile_le _ _)
      omega
    · cases h
  · cases h

/-- The executable `Rat.floor` used by `round2` is `Int.floor`. -/
theorem ratFloor_eq_intFloor (q : ℚ) : (Rat.floor q : ℤ) = ⌊q⌋ := by
  rw [Rat.floor_def, Rat.floor_def']

/-- Evaluation rule for `round2` at a value whose scaled floor is known. -/
theorem round2_eq (x : ℚ) (n : ℤ) (h1 : (n : ℚ) ≤ x * 100 + 1 / 2)
    (h2 : x * 100 + 1 / 2 < n + 1) : round2 x = (n : ℚ) / 100 := by
  unfold round2
  have hf : Rat.floor (x * 100 + 1 / 2) = n := by
    rw [ratFloor_eq_intFloor]
    exact Int.floor_eq_iff.mpr ⟨h1, h2⟩
  rw [hf]

/-- A rational whose quadruple is an integer sits within `3/4` of its
floor. -/
theorem floor_quarter_bound (k : ℤ) (y : ℚ) (hy : 4 * y = (k : ℚ)) :
    (k : ℚ) - 3 ≤ 4 * (⌊y⌋ : ℚ) := by
  have hfl : y - 1 < (⌊y⌋ : ℚ) := Int.sub_one_lt_floor y
  have h1 : (k : ℚ) - 4 < 4 * (⌊y⌋ : ℚ) := by linarith
  have h2 : k - 4 < 4 * ⌊y⌋ := by exact_mod_cast h1
  have h3 : k - 3 ≤ 4 * ⌊y⌋ := by omega
  exact_mod_cast h3

/-- Rounding a similarity value to two decimals loses at most `1/400`:
every raw similarity is a multiple of `1/16`, whose scaled fractional
part is at worst `3/4`. -/
theorem round2_rawSimilarity_ge (d : ℕ) (T : ℚ) (h : T ≤ rawSimilarity d) :
    T - 1 / 400 ≤ round2 (rawSimilarity d) := by
  have hy : 4 * (rawSimilarity d * 100 + 1 / 2) = ((40002 - 625 * (d : ℤ) : ℤ) : ℚ) := by
    unfold rawSimilarity
    push_cast
    ring
  have hb := floor_quarter_bound _ _ hy
  have hraw : 400 * rawSimilarity d = ((40002 - 625 * (d : ℤ) : ℤ) : ℚ) - 2 := by
    unfold rawSimilarity
    push_cast
    ring
  unfold round2
  rw [ratFloor_eq_intFloor]
  linarith

/-- Every entry the comparison loop adds to its accumulator satisfies
the similarity formula, the threshold test and the loop's title flag. -/
theorem mem_compareFold {env : ApiEnv} {targetHash : ImageHash} {searchMethod : String}
    {threshold : ℚ} :
    ∀ {books : List Book} {acc : List ScoredMatch} {m : ScoredMatch},
      m ∈ books.foldl (compareStep env targetHash searchMethod threshold) acc →
      m ∈ acc ∨
        (m.similarity = round2 (rawSimilarity m.hammingDistance) ∧
         threshold ≤ rawSimilarity m.hammingDistance ∧
         m.matchedByTitle = (searchMethod == "title-based")) := by
  intro books
  induction books with
  | nil => exact fun h => Or.inl h
  | cons b rest ih =>
    intro acc m h
    rcases ih h with hmem | hP
    · simp only [compareStep] at hmem
      split at hmem
      · exact Or.inl hmem
      · split at hmem
        · rcases List.mem_append.mp hmem with h1 | h2
          · exact Or.inl h1
          · right
            rcases List.mem_singleton.mp h2 with rfl
            exact ⟨rfl, by assumption, rfl⟩
        · exact Or.inl hmem
    · exact Or.inr hP

/-- `mem_compareFold` at the empty accumulator. -/
theorem mem_compareAll_prop {env : ApiEnv} {targetHash : ImageHash} {searchMethod : String}
    {threshold : ℚ} {books : List Book} {m : ScoredMatch}
    (h : m ∈ compareAll env targetHash searchMethod threshold books) :
    m.similarity = round2 (rawSimilarity m.hammingDistance) ∧
    threshold ≤ rawSimilarity m.hammingDistance ∧
    m.matchedByTitle = (searchMethod == "title-based") := by
  rcases mem_compareFold h with h0 | hP
  · cases h0
  · exact hP

theorem simGe_trans (a b c : ScoredMatch) : simGe a b → simGe b c → simGe a c := by
  simp only [simGe, decide_eq_true_eq]
  exact fun h1 h2 => le_trans h2 h1

theorem simGe_total (a b : ScoredMatch) : simGe a b || simGe b a := by
  simp only [simGe, Bool.or_eq_true, decide_eq_true_eq]
  exact le_total b.similarity a.similarity

/-- Inversion of a successful pipeline run: either the early empty
return or the main return built from the candidate search and the
comparison loop. -/
theorem findSimilarCovers_ok_inv {env : ApiEnv} {url : String} {opts : SearchOptions}
    {r : PipelineResult} (h : findSimilarCovers env url opts = .ok r) :
    ∃ targetHash, env.imageHash url = .ok targetHash ∧
      ∃ books searchMethod, candidateSearch env opts = .ok (books, searchMethod) ∧
        ((books.length = 0 ∧
          r = { targetHash := targetHash.toHex, results := [], totalCompared := 0,
                searchMethod := "none", searchQuery := effectiveQuery opts }) ∨
         (books.length ≠ 0 ∧
          r = { targetHash := targetHash.toHex,
                results := ((compareAll env targetHash searchMethod
                    opts.similarityThreshold books).mergeSort simGe).take opts.topN,
                totalCompared := books.length, searchMethod := searchMethod,
                searchQuery := effectiveQuery opts })) := by
  unfold findSimilarCovers at h
  split at h
  · cases h
  · rename_i targetHash heq
    refine ⟨targetHash, heq, ?_⟩
    split at h
    · cases h
    · rename_i books searchMethod hcs
      refine ⟨books, searchMethod, hcs, ?_⟩
      split at h
      · rename_i hlen
        cases h
        exact Or.inl ⟨hlen, rfl⟩
      · rename_i hlen
        cases h
        exact Or.inr ⟨hlen, rfl⟩

/-- The orchestrator's fold is first-occurrence deduplication. -/
theorem foldl_dedupStep_eq (books : List Book) :
    ∀ (out : List Book) (seen : List (Option String)),
      books.foldl dedupStep (out, seen) =
        (out ++ dedupByKeyAux books seen, seenAfter books seen) := by
  induction books with
  | nil =>
    intro out seen
    simp [dedupByKeyAux, seenAfter]
  | cons b rest ih =>
    intro out seen
    simp only [List.foldl_cons]
    by_cases hb : hasCover b ∧ bookKey b ∉ seen
    · rw [show dedupStep (out, seen) b = (out ++ [b], bookKey b :: seen) from by
        simp [dedupStep, hb]]
      rw [ih]
      simp [dedupByKeyAux, seenAfter, hb]
    · rw [show dedupStep (out, seen) b = (out, seen) from by simp [dedupStep, hb]]
      rw [ih]
      simp [dedupByKeyAux, seenAfter, hb]

theorem seenAfter_append (l1 : List Book) :
    ∀ (l2 : List Book) (seen : List (Option String)),
      seenAfter (l1 ++ l2) seen = seenAfter l2 (seenAfter l1 seen) := by
  induction l1 with
  | nil =>
    intro l2 seen
    simp [seenAfter]
  | cons b rest ih =>
    intro l2 seen
    by_cases hb : hasCover b ∧ bookKey b ∉ seen
    · simp [seenAfter, hb, ih]
    · simp [seenAfter, hb, ih]

theorem dedupByKeyAux_append (l1 : List Book) :
    ∀ (l2 : List Book) (seen : List (Option String)),
      dedupByKeyAux (l1 ++ l2) seen =
        dedupByKeyAux l1 seen ++ dedupByKeyAux l2 (seenAfter l1 seen) := by
  induction l1 with
  | nil =>
    intro l2 seen
    simp [dedupByKeyAux, seenAfter]
  | cons b rest ih =>
    intro l2 seen
    by_cases hb : hasCover b ∧ bookKey b ∉ seen
    · simp [dedupByKeyAux, seenAfter, hb, ih]
    · simp [dedupByKeyAux, seenAfter, hb, ih]

theorem foldl_searchVariations_eq (env : ApiEnv) (maxR : ℕ) (vars : List String) :
    ∀ (out : List Book) (seen : List (Option String)),
      vars.foldl (searchVariationsFold env maxR) (out, seen) =
        (out ++ dedupByKeyAux (vars.flatMap (variationBooks env maxR)) seen,
         seenAfter (vars.flatMap (variationBooks env maxR)) seen) := by
  induction vars with
  | nil =>
    intro out seen
    simp [dedupByKeyAux, seenAfter]
  | cons v rest ih =>
    intro out seen
    simp only [List.foldl_cons, List.flatMap_cons]
    rw [dedupByKeyAux_append, seenAfter_append]
    cases hv : searchBooks env v 1 maxR with
    | error e =>
      have hvb : variationBooks env maxR v = [] := by simp [variationBooks, hv]
      have hsv : searchVariationsFold env maxR (out, seen) v = (out, seen) := by
        simp [searchVariationsFold, hv]
      rw [hsv, ih, hvb]
      simp [dedupByKeyAux, seenAfter]
    | ok books =>
      have hvb : variationBooks env maxR v = books := by simp [variationBooks, hv]
      have hsv : searchVariationsFold env maxR (out, seen) v =
          books.foldl dedupStep (out, seen) := by
        simp [searchVariationsFold, hv]
      rw [hsv, foldl_dedupStep_eq, ih, hvb]
      simp [List.append_assoc]

/-- `searchBooksByTitle` is first-occurrence deduplication of the
discovery stream. -/
theorem searchBooksByTitle_eq_dedup (env : ApiEnv) (title : String) (maxR : ℕ) :
    searchBooksByTitle env title maxR = dedupByKeyAux (titleSearchStream env title maxR) [] := by
  unfold searchBooksByTitle titleSearchStream
  rw [foldl_searchVariations_eq]
  simp

/-- Every book kept by the deduplication has a cover and an unseen key. -/
theorem dedupByKeyAux_mem {l : List Book} :
    ∀ {seen : List (Option String)} {b2 : Book}, b2 ∈ dedupByKeyAux l seen →
      hasCover b2 ∧ bookKey b2 ∉ seen := by
  induction l with
  | nil =>
    intro seen b2 h
    cases h
  | cons b rest ih =>
    intro seen b2 h
    simp only [dedupByKeyAux] at h
    split at h
    · rename_i hb
      rcases List.mem_cons.mp h with rfl | h2
      · exact hb
      · have h3 := ih h2
        exact ⟨h3.1, fun hs => h3.2 (List.mem_cons_of_mem _ hs)⟩
    · exact ih h

/-- The keys of the deduplicated list are pairwise distinct. -/
theorem dedupByKeyAux_nodup_keys (l : List Book) :
    ∀ seen : List (Option String), ((dedupByKeyAux l seen).map bookKey).Nodup := by
  induction l with
  | nil =>
    intro seen
    simp [dedupByKeyAux]
  | cons b rest ih =>
    intro seen
    simp only [dedupByKeyAux]
    split
    · rename_i hb
      simp only [List.map_cons, List.nodup_cons]
      refine ⟨?_, ih _⟩
      intro hmem
      rcases List.mem_map.mp hmem with ⟨b2, hb2, hkey⟩
      exact (dedupByKeyAux_mem hb2).2 (hkey ▸ List.mem_cons_self _ _)
    · exact ih _

/-- Every cover-bearing book of the stream is represented in the
deduplicated list (or its key was already seen). -/
theorem dedupByKeyAux_complete {l : List Book} :
    ∀ {seen : List (Option String)} {b : Book}, b ∈ l → hasCover b →
      bookKey b ∈ seen ∨ ∃ b2 ∈ dedupByKeyAux l seen, bookKey b2 = bookKey b := by
  induction l with
  | nil =>
    intro seen b h
    cases h
  | cons a rest ih =>
    intro seen b hmem hc
    simp only [dedupByKeyAux]
    split
    · rename_i ha
      rcases List.mem_cons.mp hmem with rfl | h2
      · exact Or.inr ⟨b, List.mem_cons_self _ _, rfl⟩
      · rcases ih h2 hc with hseen | ⟨b2, hb2, hk⟩
        · rcases List.mem_cons.mp hseen with heq | hin
          · exact Or.inr ⟨a, List.mem_cons_self _ _, heq.symm⟩
          · exact Or.inl hin
        · exact Or.inr ⟨b2, List.mem_cons_of_mem _ hb2, hk⟩
    · rename_i ha
      rcases List.mem_cons.mp hmem with rfl | h2
      · left
        by_contra hns
        exact ha ⟨hc, hns⟩
      · exact ih h2 hc

/-- Each book kept by the deduplication is the first cover-bearing book
of the stream that carries its key. -/
theorem dedupByKeyAux_first {l : List Book} :
    ∀ {seen : List (Option String)} {b2 : Book}, b2 ∈ dedupByKeyAux l seen →
      (l.filter hasCover).find? (fun x => bookKey x == bookKey b2) = some b2 := by
  induction l with
  | nil =>
    intro seen b2 h
    cases h
  | cons a rest ih =>
    intro seen b2 h
    simp only [dedupByKeyAux] at h
    split at h
    · rename_i ha
      rw [List.filter_cons_of_pos ha.1]
      rcases List.mem_cons.mp h with rfl | h2
      · rw [List.find?_cons_of_pos _ (by simp)]
      · have hkne : bookKey b2 ≠ bookKey a := by
          intro he
          exact (dedupByKeyAux_mem h2).2 (he ▸ List.mem_cons_self _ _)
        rw [List.find?_cons_of_neg _ (by simp [Ne.symm hkne])]
        exact ih h2
    · rename_i ha
      by_cases hca : hasCover a
      · have hseen : bookKey a ∈ seen := by
          by_contra hns
          exact ha ⟨hca, hns⟩
        have hkne : bookKey b2 ≠ bookKey a := by
          intro he
          exact (dedupByKeyAux_mem h).2 (he ▸ hseen)
        rw [List.filter_cons_of_pos hca]
        rw [List.find?_cons_of_neg _ (by simp [Ne.symm hkne])]
        exact ih h
      · rw [List.filter_cons_of_neg (by simpa using hca)]
        exact ih h

/-- The deduplicated list preserves discovery order. -/
theorem dedupByKeyAux_sublist (l : List Book) :
    ∀ seen : List (Option String), (dedupByKeyAux l seen).Sublist (l.filter hasCover) := by
  induction l with
  | nil =>
    intro seen
    simp [dedupByKeyAux]
  | cons a rest ih =>
    intro seen
    simp only [dedupByKeyAux]
    split
    · rename_i ha
      rw [List.filter_cons_of_pos ha.1]
      exact List.Sublist.cons₂ _ (ih _)
    · rename_i ha
      by_cases hca : hasCover a
      · rw [List.filter_cons_of_pos hca]
        exact List.Sublist.cons _ (ih _)
      · rw [List.filter_cons_of_neg (by simpa using hca)]
        exact ih _

/-- A list with pairwise-distinct keys holds at most one book per key. -/
theorem count_key_le_one {l : List Book} (h : (l.map bookKey).Nodup) (k : Option String) :
    (l.filter (fun b => bookKey b == k)).length ≤ 1 := by
  induction l with
  | nil => simp
  | cons a rest ih =>
    simp only [List.map_cons, List.nodup_cons] at h
    by_cases hk : bookKey a == k
    · rw [show (a :: rest).filter (fun b => bookKey b == k) =
          a :: rest.filter (fun b => bookKey b == k) from by
        simp [List.filter_cons, hk]]
      have hrest : rest.filter (fun b => bookKey b == k) = [] := by
        rw [List.filter_eq_nil_iff]
        intro b hb hbk
        have h1 : bookKey a = k := by simpa using hk
        have h2 : bookKey b = k := by simpa using hbk
        exact h.1 (List.mem_map.mpr ⟨b, hb, h2.trans h1.symm⟩)
      rw [hrest]
      simp
    · rw [show (a :: rest).filter (fun b => bookKey b == k) =
          rest.filter (fun b => bookKey b == k) from by
        simp [List.filter_cons, hk]]
      exact ih h.2

theorem mem_setAdd_self (l : List String) (s : String) : s ∈ setAdd l s := by
  unfold setAdd
  split
  · assumption
  · exact List.mem_append.mpr (Or.inr (List.mem_singleton.mpr rfl))

theorem mem_setAdd_of_mem {l : List String} {x : String} (h : x ∈ l) (s : String) :
    x ∈ setAdd l s := by
  unfold setAdd
  split
  · exact h
  · exact List.mem_append_left _ h

theorem mem_foldl_setAdd (ts : List String) :
    ∀ {l : List String} {x : String}, x ∈ l → x ∈ ts.foldl setAdd l := by
  induction ts with
  | nil => exact fun h => h
  | cons t rest ih =>
    intro l x h
    exact ih (mem_setAdd_of_mem h t)

theorem mem_ite_setAdd {l : List String} {x : String} (h : x ∈ l) (c : Prop) [Decidable c]
    (y : String) : x ∈ if c then setAdd l y else l := by
  split
  · exact mem_setAdd_of_mem h y
  · exact h

theorem string_length_pos {s : String} (h : s ≠ "") : 0 < s.length := by
  cases s with
  | mk data =>
    cases data with
    | nil => exact absurd rfl h
    | cons c cs => simp [String.length]

/-- A list holding two distinct elements has length at least two. -/
theorem two_le_length_of_two_mem {α : Type _} {l : List α} {a b : α}
    (ha : a ∈ l) (hb : b ∈ l) (hne : a ≠ b) : 2 ≤ l.length := by
  match l with
  | [] => cases ha
  | [x] =>
    rcases List.mem_singleton.mp ha with rfl
    rcases List.mem_singleton.mp hb with rfl
    exact absurd rfl hne
  | x :: y :: rest =>
    simp only [List.length_cons]
    omega

/-- When the input title normalizes to something non-empty, the
normalized form survives into the variation list. -/
theorem normalized_mem_variations (title : String) (hn : normalizeTitle title ≠ "") :
    normalizeTitle title ∈ getTitleVariations title := by
  unfold getTitleVariations
  refine List.mem_filter.mpr ⟨?_, by simpa using string_length_pos hn⟩
  apply mem_ite_setAdd
  apply mem_ite_setAdd
  apply mem_foldl_setAdd
  exact mem_setAdd_of_mem (mem_setAdd_self [] _) _

/-- When the input title is non-empty, the original form survives into
the variation list. -/
theorem orig_mem_variations (title : String) (ht : title ≠ "") :
    title ∈ getTitleVariations title := by
  unfold getTitleVariations
  refine List.mem_filter.mpr ⟨?_, by simpa using string_length_pos ht⟩
  apply mem_ite_setAdd
  apply mem_ite_setAdd
  apply mem_foldl_setAdd
  exact mem_setAdd_self _ _

/-- ASCII lower-casing is idempotent. -/
theorem char_toLower_idem (c : Char) : c.toLower.toLower = c.toLower := by
  simp only [Char.toLower]
  by_cases h : c.toNat ≥ 65 ∧ c.toNat ≤ 90
  · have hv : (c.toNat + 32).isValidChar := Or.inl (by omega)
    have ht : (Char.ofNat (c.toNat + 32)).toNat = c.toNat + 32 := by
      rw [Char.ofNat, dif_pos hv]
      rfl
    rw [if_pos h, ht, if_neg (by omega)]
  · rw [if_neg h, if_neg h]

theorem map_toLower_fixed {l : List Char} (hall : ∀ c ∈ l, c.toLower = c) :
    l.map Char.toLower = l := by
  induction l with
  | nil => rfl
  | cons a rest ih =>
    simp only [List.map_cons]
    rw [hall a (List.mem_cons_self _ _), ih (fun c hc => hall c (List.mem_cons_of_mem _ hc))]

theorem string_mk_toList (s : String) : String.mk s.toList = s := by
  cases s
  rfl

/-- Characters of the whitespace collapse come from the input or are
the space character. -/
theorem mem_collapseWsAux {l : List Char} :
    ∀ {b : Bool} {c : Char}, c ∈ collapseWsAux l b → c = ' ' ∨ c ∈ l := by
  induction l with
  | nil =>
    intro b c h
    cases h
  | cons a rest ih =>
    intro b c h
    simp only [collapseWsAux] at h
    split at h
    · split at h
      · rcases ih h with h1 | h2
        · exact Or.inl h1
        · exact Or.inr (List.mem_cons_of_mem _ h2)
      · rcases List.mem_cons.mp h with rfl | h2
        · exact Or.inl rfl
        · rcases ih h2 with h1 | h3
          · exact Or.inl h1
          · exact Or.inr (List.mem_cons_of_mem _ h3)
    · rcases List.mem_cons.mp h with rfl | h2
      · exact Or.inr (List.mem_cons_self _ _)
      · rcases ih h2 with h1 | h3
        · exact Or.inl h1
        · exact Or.inr (List.mem_cons_of_mem _ h3)

/-- Every character of a normalized title is fixed by lower-casing:
the normalizer lower-cases first and then only drops characters or
introduces spaces. -/
theorem normalizeTitle_chars_fixed (title : String) :
    ∀ c ∈ (normalizeTitle title).toList, c.toLower = c := by
  intro c hc
  have h1 : c ∈ (collapseWs (replaceSeparators (jsToLower title))).toList := by
    unfold normalizeTitle jsTrim at hc
    simp only [String.toList] at hc ⊢
    have h2 := List.mem_reverse.mp hc
    have h3 := List.dropWhile_subset _ h2
    have h4 := List.mem_reverse.mp h3
    exact List.dropWhile_subset _ h4
  have h5 : c = ' ' ∨ c ∈ (replaceSeparators (jsToLower title)).toList := by
    unfold collapseWs at h1
    simp only [String.toList] at h1
    exact mem_collapseWsAux h1
  rcases h5 with rfl | h6
  · decide
  · unfold replaceSeparators at h6
    simp only [String.toList] at h6
    rcases List.mem_map.mp h6 with ⟨c0, hc0, rfl⟩
    split
    · decide
    · unfold jsToLower at hc0
      simp only [String.toList] at hc0
      rcases List.mem_map.mp hc0 with ⟨c1, _, rfl⟩
      exact char_toLower_idem c1

/-- Lower-casing a normalized title changes nothing. -/
theorem jsToLower_normalizeTitle (title : String) :
    jsToLower (normalizeTitle title) = normalizeTitle title := by
  unfold jsToLower
  rw [map_toLower_fixed (normalizeTitle_chars_fixed title)]
  exact string_mk_toList _

/-- Off the throwing key, the checked variation builder returns
exactly what the total one computes. -/
theorem getTitleVariationsE_agrees (title : String)
    (hc : normalizeTitle title ≠ "constructor") :
    getTitleVariationsE title = .ok (getTitleVariations title) := by
  have hkey : jsToLower (normalizeTitle title) ≠ "constructor" := by
    rw [jsToLower_normalizeTitle]
    exact hc
  by_cases h1 : jsToLower (normalizeTitle title) = "harry potter"
  · simp [getTitleVariationsE, getTitleVariations, variationsFrom,
      commonTranslationsLookup, commonTranslations, h1]
  · by_cases h2 : jsToLower (normalizeTitle title) = "lord of the rings"
    · simp [getTitleVariationsE, getTitleVariations, variationsFrom,
        commonTranslationsLookup, commonTranslations, h1, h2]
    · simp [getTitleVariationsE, getTitleVariations, variationsFrom,
        commonTranslationsLookup, commonTranslations, h1, h2, hkey]

/-- A failed `getBooksWithCovers` is a failed underlying search. -/
theorem getBooksWithCovers_error {env : ApiEnv} {q : String} {m : ℕ} {e : PipeError}
    (h : getBooksWithCovers env q m = .error e) : searchBooks env q 1 m = .error e := by
  unfold getBooksWithCovers at h
  split at h
  · rename_i e2 hs
    cases h
    exact hs
  · cases h

/-- A failed candidate search is a failed generic-fallback search. -/
theorem candidateSearch_error {env : ApiEnv} {opts : SearchOptions} {e : PipeError}
    (h : candidateSearch env opts = .error e) :
    searchBooks env opts.query 1 opts.maxResults = .error e := by
  simp only [candidateSearch] at h
  by_cases h0 : (titleTierBooks env opts.imageName).length = 0
  · rw [if_pos h0] at h
    cases hg : getBooksWithCovers env opts.query opts.maxResults with
    | error e2 =>
      simp only [hg] at h
      injection h with he
      subst he
      exact getBooksWithCovers_error hg
    | ok books2 => simp [hg] at h
  · rw [if_neg h0] at h
    cases h

/-- The method tag accompanying a successful candidate search with an
empty title tier is `generic` or `none`. -/
theorem method_of_title_empty {env : ApiEnv} {opts : SearchOptions} {books : List Book}
    {m : String} (hcs : candidateSearch env opts = .ok (books, m))
    (h0 : titleTierBooks env opts.imageName = []) :
    m = "generic" ∨ m = "none" := by
  simp only [candidateSearch, h0] at hcs
  simp only [List.length_nil, if_pos rfl] at hcs
  cases hg : getBooksWithCovers env opts.query opts.maxResults with
  | error e2 => simp [hg] at hcs
  | ok books2 =>
    simp only [hg] at hcs
    injection hcs with hpair
    have hm : m = if 0 < books2.length then "generic" else "none" :=
      (congrArg Prod.snd hpair).symm
    by_cases hl : 0 < books2.length
    · rw [if_pos hl] at hm
      exact Or.inl hm
    · rw [if_neg hl] at hm
      exact Or.inr hm

/-- The candidate search reads only the name, query and result-count
options. -/
theorem candidateSearch_congr (env : ApiEnv) (o1 o2 : SearchOptions)
    (h1 : o1.imageName = o2.imageName) (h2 : o1.query = o2.query)
    (h3 : o1.maxResults = o2.maxResults) :
    candidateSearch env o1 = candidateSearch env o2 := by
  simp only [candidateSearch, h1, h2, h3]

/-- Evaluation of the comparison loop in the main scenario. -/
theorem compareAll_envMain (T : ℚ) (hT : T ≤ rawSimilarity 3) :
    compareAll envMain targetHashW "generic" T [bookB] = [matchB] := by
  have hh : envMain.imageHash (coverUrl bookB) = .ok candHash3 := by decide
  have hd : targetHashW.hammingDistance candHash3 = 3 := by decide
  have hbe : ("generic" == "title-based") = false := by decide
  simp only [compareAll, List.foldl_cons, List.foldl_nil, compareStep, hh, hd]
  rw [if_pos (show rawSimilarity 3 ≥ T from hT)]
  simp [matchB, hbe]

/-- Evaluation of the whole pipeline in the main scenario, for any
threshold the one candidate passes. -/
theorem findSimilarCovers_envMain (T : ℚ) (hT : T ≤ rawSimilarity 3) :
    findSimilarCovers envMain "target" { similarityThreshold := T } =
      .ok { targetHash := targetHashW.toHex, results := [matchB], totalCompared := 1,
            searchMethod := "generic", searchQuery := "fiction" } := by
  have hth : envMain.imageHash "target" = .ok targetHashW := by decide
  have hcs : candidateSearch envMain { similarityThreshold := T } = .ok ([bookB], "generic") := by
    rw [candidateSearch_congr envMain { similarityThreshold := T } {} rfl rfl rfl]
    decide
  simp only [findSimilarCovers, hth, hcs]
  rw [if_neg (by decide : ¬ (([bookB] : List Book).length = 0))]
  rw [compareAll_envMain T hT, List.mergeSort_singleton]
  simp [effectiveQuery]

/-- Evaluation of the pipeline when the lone candidate's hash fails. -/
theorem envHashFail_run :
    findSimilarCovers envHashFail "target" {} =
      .ok { targetHash := targetHashW.toHex, results := [], totalCompared := 1,
            searchMethod := "generic", searchQuery := "fiction" } := by
  have hth : envHashFail.imageHash "target" = .ok targetHashW := by decide
  have hcs : candidateSearch envHashFail {} = .ok ([bookB], "generic") := by decide
  have hca : compareAll envHashFail targetHashW "generic"
      ({} : SearchOptions).similarityThreshold [bookB] = [] := by decide
  simp only [findSimilarCovers, hth, hcs]
  rw [if_neg (by decide : ¬ (([bookB] : List Book).length = 0))]
  rw [hca, List.mergeSort_nil]
  simp [effectiveQuery]

/-!
## Claim theorems
-/

/-- C9: `extractBookTitle` applied to `"My_Book - copy (2).jpg"`
returns exactly `"My Book"` — the image extension, the separators and
the copy-suffix are removed and whitespace runs collapse to single
spaces. -/
theorem claim_C9_extract_title : extractBookTitle "My_Book - copy (2).jpg" = "My Book" := by
  decide

/-- C2: every candidate retained by the ranker stores
`(1 − hammingDistance / 64) × 100` rounded to two decimal places as its
similarity; distance 0 yields 100.00, 64 yields 0.00 and 16 yields
75.00. -/
theorem claim_C2_similarity_formula (env : ApiEnv) (targetHash : ImageHash)
    (searchMethod : String) (threshold : ℚ) (books : List Book) :
    (∀ m ∈ compareAll env targetHash searchMethod threshold books,
       m.similarity = round2 (rawSimilarity m.hammingDistance)) ∧
    round2 (rawSimilarity 0) = 100 ∧ round2 (rawSimilarity 64) = 0 ∧
    round2 (rawSimilarity 16) = 75 := by
  refine ⟨fun m hm => (mem_compareAll_prop hm).1, ?_, ?_, ?_⟩
  · rw [round2_eq (rawSimilarity 0) 10000 (by norm_num [rawSimilarity])
      (by norm_num [rawSimilarity])]
    norm_num
  · rw [round2_eq (rawSimilarity 64) 0 (by norm_num [rawSimilarity])
      (by norm_num [rawSimilarity])]
    norm_num
  · rw [round2_eq (rawSimilarity 16) 7500 (by norm_num [rawSimilarity])
      (by norm_num [rawSimilarity])]
    norm_num

/-- C2 witness: the concrete scenario's retained match instantiates the
similarity formula. -/
theorem claim_C2_witness :
    matchB ∈ compareAll envMain targetHashW "generic" 70 [bookB] ∧
    matchB.similarity = round2 (rawSimilarity matchB.hammingDistance) := by
  have hm : matchB ∈ compareAll envMain targetHashW "generic" 70 [bookB] := by
    rw [compareAll_envMain 70 (by norm_num [rawSimilarity])]
    exact List.mem_singleton.mpr rfl
  exact ⟨hm, (claim_C2_similarity_formula envMain targetHashW "generic" 70 [bookB]).1 matchB hm⟩

/-- C1 counterexample: at threshold `95.3125`, the candidate at Hamming
distance 3 passes the pre-rounding filter, yet its stored two-decimal
similarity `95.31` is below the threshold — refuting that every
entry's similarity field reaches the supplied threshold. -/
theorem claim_C1_counterexample :
    ∃ r, findSimilarCovers envMain "target" { similarityThreshold := 1525 / 16 } = .ok r ∧
      ∃ m ∈ r.results, m.similarity < 1525 / 16 := by
  refine ⟨_, findSimilarCovers_envMain (1525 / 16) (by norm_num [rawSimilarity]), matchB,
    List.mem_singleton.mpr rfl, ?_⟩
  show round2 (rawSimilarity 3) < 1525 / 16
  rw [round2_eq (rawSimilarity 3) 9531 (by norm_num [rawSimilarity])
    (by norm_num [rawSimilarity])]
  norm_num

/-- C1 (amended): the results are sorted non-increasingly in
similarity and number at most `topN`; every entry's pre-rounding
similarity reaches the threshold, so the stored two-decimal similarity
is below the threshold by at most `1/400` (`0.0025`). -/
theorem claim_C1_ranking {env : ApiEnv} {url : String} {opts : SearchOptions}
    {r : PipelineResult} (h : findSimilarCovers env url opts = .ok r) :
    r.results.Pairwise (fun a b => b.similarity ≤ a.similarity) ∧
    r.results.length ≤ opts.topN ∧
    ∀ m ∈ r.results, opts.similarityThreshold ≤ rawSimilarity m.hammingDistance ∧
      opts.similarityThreshold - 1 / 400 ≤ m.similarity := by
  rcases findSimilarCovers_ok_inv h with ⟨th, hth, books, sm, hcs, hcase⟩
  rcases hcase with ⟨hlen, rfl⟩ | ⟨hlen, rfl⟩
  · exact ⟨List.Pairwise.nil, by simp, fun m hm => absurd hm (by simp)⟩
  · refine ⟨?_, ?_, ?_⟩
    · have hs := List.sorted_mergeSort simGe_trans simGe_total
        (compareAll env th sm opts.similarityThreshold books)
      have hsub := List.take_sublist opts.topN
        ((compareAll env th sm opts.similarityThreshold books).mergeSort simGe)
      exact (List.Pairwise.sublist hsub hs).imp (fun hab => by simpa [simGe] using hab)
    · show (List.take _ _).length ≤ _
      rw [List.length_take]
      exact min_le_left _ _
    · intro m hm
      have hm2 : m ∈ compareAll env th sm opts.similarityThreshold books :=
        List.mem_mergeSort.mp (List.take_subset _ _ hm)
      obtain ⟨hsim, hthr, _⟩ := mem_compareAll_prop hm2
      refine ⟨hthr, ?_⟩
      rw [hsim]
      exact round2_rawSimilarity_ge _ _ hthr

/-- C1 witness: the amended ranking invariant at the concrete
scenario. -/
theorem claim_C1_witness :
    ∃ r, findSimilarCovers envMain "target" { similarityThreshold := 70 } = .ok r ∧
      r.results.Pairwise (fun a b => b.similarity ≤ a.similarity) ∧
      r.results.length ≤ 10 ∧
      ∀ m ∈ r.results, (70 : ℚ) - 1 / 400 ≤ m.similarity := by
  have hrun := findSimilarCovers_envMain 70 (by norm_num [rawSimilarity])
  have h := claim_C1_ranking hrun
  exact ⟨_, hrun, h.1, h.2.1, fun m hm => (h.2.2 m hm).2⟩

/-- C3 counterexample: a remote failure of the generic fallback search
propagates to the caller even though the credential is configured and
the target hash succeeded — refuting that only configuration errors
and target-hash failures raise. -/
theorem claim_C3_counterexample :
    findSimilarCovers envGenFail "target" {} =
      .error (.remote "ISBNDB API error: 500 Internal Server Error") ∧
    PipeError.remote "ISBNDB API error: 500 Internal Server Error" ≠ .configError ∧
    envGenFail.imageHash "target" = .ok targetHashW := by
  exact ⟨by decide, by decide, by decide⟩

/-- C3 (amended): a pipeline invocation raises exactly the target-hash
failure or the failure of the generic-fallback search request (which
is where a missing credential surfaces); failures on individual
candidates never raise. -/
theorem claim_C3_error_sources {env : ApiEnv} {url : String} {opts : SearchOptions}
    {e : PipeError} (h : findSimilarCovers env url opts = .error e) :
    env.imageHash url = .error e ∨ searchBooks env opts.query 1 opts.maxResults = .error e := by
  unfold findSimilarCovers at h
  split at h
  · rename_i e2 hth
    injection h with he
    subst he
    exact Or.inl hth
  · rename_i th hth
    split at h
    · rename_i e2 hcs
      injection h with he
      subst he
      exact Or.inr (candidateSearch_error hcs)
    · split at h
      · cases h
      · cases h

/-- C3 witness: the error-source disjunction at the concrete failing
scenario. -/
theorem claim_C3_witness :
    envGenFail.imageHash "target" =
        .error (.remote "ISBNDB API error: 500 Internal Server Error") ∨
    searchBooks envGenFail "fiction" 1 50 =
        .error (.remote "ISBNDB API error: 500 Internal Server Error") :=
  @claim_C3_error_sources envGenFail "target" {}
    (.remote "ISBNDB API error: 500 Internal Server Error") (by decide)

/-- C5: when the title tier was skipped, failed entirely or yielded
zero usable candidates, the returned method tag is never `title-based`
— it is `generic`, `generic-fallback` or `none`. -/
theorem claim_C5_fallback_tag {env : ApiEnv} {url : String} {opts : SearchOptions}
    {r : PipelineResult} (h : findSimilarCovers env url opts = .ok r)
    (h0 : titleTierBooks env opts.imageName = []) :
    r.searchMethod ≠ "title-based" ∧
    (r.searchMethod = "generic" ∨ r.searchMethod = "generic-fallback" ∨
     r.searchMethod = "none") := by
  rcases findSimilarCovers_ok_inv h with ⟨th, hth, books, sm, hcs, hcase⟩
  rcases method_of_title_empty hcs h0 with hm | hm <;>
    rcases hcase with ⟨hlen, rfl⟩ | ⟨hlen, rfl⟩ <;> subst hm <;> simp

/-- C5 witness: the concrete scenario skips the title tier and returns
the `generic` tag. -/
theorem claim_C5_witness :
    ∃ r, findSimilarCovers envMain "target" { similarityThreshold := 70 } = .ok r ∧
      r.searchMethod ≠ "title-based" ∧ r.searchMethod = "generic" := by
  have hrun := findSimilarCovers_envMain 70 (by norm_num [rawSimilarity])
  have h := claim_C5_fallback_tag hrun (by decide)
  exact ⟨_, hrun, h.1, rfl⟩

/-- C8 counterexample: with a single candidate whose cover hash fails,
the returned `totalCompared` is 1 although no candidate was actually
compared — refuting that `totalCompared` counts successful
comparisons. -/
theorem claim_C8_counterexample :
    ∃ r, findSimilarCovers envHashFail "target" {} = .ok r ∧
      r.totalCompared = 1 ∧ specComparedCount envHashFail [bookB] = 0 ∧ r.results = [] := by
  exact ⟨_, envHashFail_run, rfl, by decide, rfl⟩

/-- C8 (amended): `totalCompared` equals the total number of candidates
of the search outcome — those attempted, including candidates skipped
because their cover hash failed. -/
theorem claim_C8_total {env : ApiEnv} {url : String} {opts : SearchOptions}
    {r : PipelineResult} {books : List Book} {m : String}
    (h : findSimilarCovers env url opts = .ok r)
    (hcs : candidateSearch env opts = .ok (books, m)) :
    r.totalCompared = books.length := by
  rcases findSimilarCovers_ok_inv h with ⟨th, hth, books2, m2, hcs2, hcase⟩
  rw [hcs] at hcs2
  injection hcs2 with hpair
  obtain ⟨rfl, rfl⟩ : books = books2 ∧ m = m2 :=
    ⟨congrArg Prod.fst hpair, congrArg Prod.snd hpair⟩
  rcases hcase with ⟨hlen, rfl⟩ | ⟨hlen, rfl⟩
  · simpa using hlen.symm
  · rfl

/-- C8 witness: the amended count at the concrete failing scenario. -/
theorem claim_C8_witness :
    ∃ r, findSimilarCovers envHashFail "target" {} = .ok r ∧
      r.totalCompared = ([bookB] : List Book).length :=
  ⟨_, envHashFail_run, claim_C8_total envHashFail_run
    (show candidateSearch envHashFail {} = .ok ([bookB], "generic") by decide)⟩

/-- C10: within one invocation all result entries carry the same
`matchedByTitle` value, and it is `true` exactly when the returned
method tag is `title-based` — the flag is never decided per
candidate. -/
theorem claim_C10_flag {env : ApiEnv} {url : String} {opts : SearchOptions}
    {r : PipelineResult} (h : findSimilarCovers env url opts = .ok r) :
    (∀ m1 ∈ r.results, ∀ m2 ∈ r.results, m1.matchedByTitle = m2.matchedByTitle) ∧
    (∀ m ∈ r.results, (m.matchedByTitle = true ↔ r.searchMethod = "title-based")) := by
  rcases findSimilarCovers_ok_inv h with ⟨th, hth, books, sm, hcs, hcase⟩
  rcases hcase with ⟨hlen, rfl⟩ | ⟨hlen, rfl⟩
  · exact ⟨fun m1 hm1 => absurd hm1 (by simp), fun m hm => absurd hm (by simp)⟩
  · have key : ∀ m ∈ ((compareAll env th sm opts.similarityThreshold books).mergeSort
        simGe).take opts.topN, m.matchedByTitle = (sm == "title-based") := by
      intro m hm
      exact (mem_compareAll_prop (List.mem_mergeSort.mp (List.take_subset _ _ hm))).2.2
    refine ⟨fun m1 h1 m2 h2 => by rw [key m1 h1, key m2 h2], fun m hm => ?_⟩
    show m.matchedByTitle = true ↔ sm = "title-based"
    rw [key m hm]
    exact beq_iff_eq

/-- C10 witness: the flag/tag equivalence at the concrete scenario. -/
theorem claim_C10_witness :
    ∃ r, findSimilarCovers envMain "target" { similarityThreshold := 70 } = .ok r ∧
      ∀ m ∈ r.results, (m.matchedByTitle = true ↔ r.searchMethod = "title-based") := by
  have hrun := findSimilarCovers_envMain 70 (by norm_num [rawSimilarity])
  exact ⟨_, hrun, (claim_C10_flag hrun).2⟩

/-- C4: across the title tier's search variations, candidates sharing
a deduplication key collapse to exactly one accumulated entry — the
first discovered — and the accumulated list preserves discovery
order. -/
theorem claim_C4_dedup (env : ApiEnv) (title : String) (maxR : ℕ) :
    (∀ k : Option String,
       ((searchBooksByTitle env title maxR).filter (fun b => bookKey b == k)).length ≤ 1) ∧
    (∀ b ∈ (titleSearchStream env title maxR).filter hasCover,
       ∃ b2 ∈ searchBooksByTitle env title maxR, bookKey b2 = bookKey b) ∧
    (∀ b2 ∈ searchBooksByTitle env title maxR,
       ((titleSearchStream env title maxR).filter hasCover).find?
         (fun x => bookKey x == bookKey b2) = some b2) ∧
    (searchBooksByTitle env title maxR).Sublist
      ((titleSearchStream env title maxR).filter hasCover) := by
  rw [searchBooksByTitle_eq_dedup]
  refine ⟨?_, ?_, ?_, ?_⟩
  · intro k
    exact count_key_le_one (dedupByKeyAux_nodup_keys _ _) k
  · intro b hb
    have hmem := List.mem_filter.mp hb
    rcases @dedupByKeyAux_complete _ [] _ hmem.1 hmem.2 with hseen | hex
    · cases hseen
    · exact hex
  · intro b2 hb2
    exact dedupByKeyAux_first hb2
  · exact dedupByKeyAux_sublist _ _

/-- C4 witness: two variations of `Dog_Cat` return candidates sharing
one ISBN; only the first-discovered candidate is accumulated. -/
theorem claim_C4_witness :
    searchBooksByTitle envDup "Dog_Cat" 20 = [bookB] ∧
    bookKey bookBdup = bookKey bookB ∧
    (∃ b2 ∈ searchBooksByTitle envDup "Dog_Cat" 20, bookKey b2 = bookKey bookBdup) ∧
    ((titleSearchStream envDup "Dog_Cat" 20).filter hasCover).find?
      (fun x => bookKey x == bookKey bookB) = some bookB := by
  have h := claim_C4_dedup envDup "Dog_Cat" 20
  refine ⟨by decide, by decide, ?_, ?_⟩
  · exact h.2.1 bookBdup (by decide)
  · exact h.2.2.1 bookB (by decide)

/-- C7 counterexample: two identifier-less candidates with usable
covers are deduplicated against each other through the shared "absent"
key — the second one is dropped, refuting that every identifier-less
candidate is kept as unique. -/
theorem claim_C7_counterexample :
    searchBooksByTitle envNoId "abc" 20 = [bookNoId1] ∧
    bookKey bookNoId1 = none ∧ bookKey bookNoId2 = none ∧
    hasCover bookNoId2 = true ∧
    bookNoId2 ∈ titleSearchStream envNoId "abc" 20 ∧
    bookNoId2 ∉ searchBooksByTitle envNoId "abc" 20 := by
  refine ⟨by decide, by decide, by decide, by decide, by decide, by decide⟩

/-- C7 (amended): candidates lacking identifiers share the single
"absent" deduplication key, so at most one of them — the first
cover-bearing one discovered — is kept. -/
theorem claim_C7_absent_key (env : ApiEnv) (title : String) (maxR : ℕ) :
    ((searchBooksByTitle env title maxR).filter (fun b => bookKey b == none)).length ≤ 1 ∧
    (∀ b ∈ (titleSearchStream env title maxR).filter hasCover, bookKey b = none →
       ∃ b2 ∈ searchBooksByTitle env title maxR, bookKey b2 = none) ∧
    (∀ b2 ∈ searchBooksByTitle env title maxR, bookKey b2 = none →
       ((titleSearchStream env title maxR).filter hasCover).find?
         (fun x => bookKey x == none) = some b2) := by
  rw [searchBooksByTitle_eq_dedup]
  refine ⟨count_key_le_one (dedupByKeyAux_nodup_keys _ _) none, ?_, ?_⟩
  · intro b hb hk
    have hmem := List.mem_filter.mp hb
    rcases @dedupByKeyAux_complete _ [] _ hmem.1 hmem.2 with hseen | ⟨b2, hb2, hkey⟩
    · cases hseen
    · exact ⟨b2, hb2, hkey.trans hk⟩
  · intro b2 hb2 hk
    have h := dedupByKeyAux_first hb2
    rwa [hk] at h

/-- C7 witness: the amended absent-key behaviour at the concrete
identifier-less scenario. -/
theorem claim_C7_witness :
    ((searchBooksByTitle envNoId "abc" 20).filter (fun b => bookKey b == none)).length ≤ 1 ∧
    ((titleSearchStream envNoId "abc" 20).filter hasCover).find?
      (fun x => bookKey x == none) = some bookNoId1 := by
  have h := claim_C7_absent_key envNoId "abc" 20
  exact ⟨h.1, h.2.2 bookNoId1 (by decide) (by decide)⟩

/-- C6 counterexample: the claim fails on two concrete inputs.  For
`"_"` the normalized form is the empty string and is filtered from the
variation list, so the result misses the normalized form and keeps a
single member although original and normalized differ.  For
`"Constructor"` the normalized form is `"constructor"`, the lookup
`COMMON_TRANSLATIONS[lowerTitle]` hits the inherited
`Object.prototype.constructor` function, and `.forEach` throws a
TypeError — the function returns no set at all. -/
theorem claim_C6_counterexample :
    getTitleVariations "_" = ["_"] ∧ normalizeTitle "_" = "" ∧
    normalizeTitle "_" ∉ getTitleVariations "_" ∧ "_" ≠ normalizeTitle "_" ∧
    ¬ 2 ≤ (getTitleVariations "_").length ∧
    normalizeTitle "Constructor" = "constructor" ∧
    getTitleVariationsE "Constructor" =
      .error "TypeError: COMMON_TRANSLATIONS[lowerTitle].forEach is not a function" := by
  refine ⟨by decide, by decide, by decide, by decide, by decide, by decide, by decide⟩

/-- C6 (amended): whenever the normalized title is non-empty and is
not the inherited-property key `"constructor"` (the one input class on
which the function throws a TypeError via the prototype chain instead
of returning), the function returns a variation list that contains
both the normalized form and the original input, is non-empty, and
has at least two members when the two differ. -/
theorem claim_C6_variations (title : String) (hn : normalizeTitle title ≠ "")
    (hc : normalizeTitle title ≠ "constructor") :
    getTitleVariationsE title = .ok (getTitleVariations title) ∧
    normalizeTitle title ∈ getTitleVariations title ∧
    title ∈ getTitleVariations title ∧
    getTitleVariations title ≠ [] ∧
    (title ≠ normalizeTitle title → 2 ≤ (getTitleVariations title).length) := by
  have ht : title ≠ "" := by
    intro h0
    rw [h0] at hn
    exact hn (by decide)
  refine ⟨getTitleVariationsE_agrees title hc, normalized_mem_variations title hn,
    orig_mem_variations title ht, ?_, ?_⟩
  · exact List.ne_nil_of_mem (orig_mem_variations title ht)
  · intro hne
    exact two_le_length_of_two_mem (orig_mem_variations title ht)
      (normalized_mem_variations title hn) hne

/-- C6 witness: the amended variation guarantees at a concrete title
whose original and normalized forms differ. -/
theorem claim_C6_witness :
    getTitleVariationsE "Harry_Potter" = .ok (getTitleVariations "Harry_Potter") ∧
    normalizeTitle "Harry_Potter" ∈ getTitleVariations "Harry_Potter" ∧
    "Harry_Potter" ∈ getTitleVariations "Harry_Potter" ∧
    2 ≤ (getTitleVariations "Harry_Potter").length := by
  have h := claim_C6_variations "Harry_Potter" (by decide) (by decide)
  exact ⟨h.1, h.2.1, h.2.2.1, h.2.2.2.2 (by decide)⟩

end CoverSearch
